import Mathlib

/-!
Verification of the RecTools item-net subsystem (`rectools/models/nn/item_net.py`)
and of the BERT4Rec data-preparation batch contracts pinned by
`tests/models/nn/test_bert4rec.py`.

Tensors are shallowly embedded as lists: a batch of embedding vectors is a
`List (List ℤ)` (entries over exact integers standing for the real-valued
tensor entries; every property verified here is structural, not about
floating-point rounding).  Stateful torch modules become Lean structures whose
buffers are explicit fields; fallible constructors return `Except`/`Option`.
-/

namespace RecTools

/-- One embedding vector (a row of a 2-D tensor). -/
abbrev Vec := List ℤ

/-- A 2-D tensor of shape `[batch, n_factors]`, row-major. -/
abbrev Mat := List Vec

/-- Elementwise addition of two rows (torch broadcast-free `+`). -/
def vecAdd (u v : Vec) : Vec := List.zipWith (fun x y => x + y) u v

/-- Elementwise addition of two equal-shaped 2-D tensors. -/
def matAdd (a c : Mat) : Mat := List.zipWith vecAdd a c

/-- `torch.sum(torch.stack(ms, dim=0), dim=0)`: elementwise sum of a stack of
equal-shaped 2-D tensors.  `torch.stack` requires a non-empty list; on `[]`
we return `[]`. -/
def sumStack : List Mat → Mat
  | [] => []
  | m :: ms => ms.foldl matAdd m

/-- Entry `m[i][j]`, defaulting to `0` out of range. -/
def entry (m : Mat) (i j : ℕ) : ℤ := (m.getD i []).getD j 0

/-- `m` is a well-formed `[b, f]` tensor. -/
def HasShape (m : Mat) (b f : ℕ) : Prop := m.length = b ∧ ∀ r ∈ m, r.length = f

/-- `ItemNetConstructor` (item_net.py): composite item network.  An item-net
block is embedded as its `forward` function from a batch of internal item ids
to a `[batch, n_factors]` tensor. -/
structure ItemNetConstructor where
  n_items : ℕ
  item_net_blocks : List (List ℕ → Mat)

/-- The message of the `ValueError` raised by `ItemNetConstructor.__init__`. -/
def emptyBlocksError : String :=
  "At least one type of net to calculate item embeddings should be provided."

/-- `ItemNetConstructor.__init__`: raises `ValueError` when the block list is
empty, otherwise produces the composite. -/
def ItemNetConstructor.make (n_items : ℕ) (blocks : List (List ℕ → Mat)) :
    Except String ItemNetConstructor :=
  if blocks.length = 0 then Except.error emptyBlocksError
  else Except.ok { n_items := n_items, item_net_blocks := blocks }

/-- `ItemNetConstructor.forward`: stacks each block's output and sums over the
block dimension. -/
def ItemNetConstructor.forward (c : ItemNetConstructor) (items : List ℕ) : Mat :=
  sumStack (c.item_net_blocks.map (fun blk => blk items))

/-- `ItemNetConstructor.catalog`: `torch.arange(0, n_items)`. -/
def ItemNetConstructor.catalog (c : ItemNetConstructor) : List ℕ :=
  List.range c.n_items

/-- `ItemNetConstructor.get_all_embeddings`: `forward(catalog)`. -/
def ItemNetConstructor.get_all_embeddings (c : ItemNetConstructor) : Mat :=
  c.forward c.catalog

/-- `ItemNetConstructor.from_dataset`: each configured block type's
`from_dataset` result on the given dataset is an `Option` block (`none` =
the block type signalled inapplicability); the non-`none` results are
collected in order and passed to the constructor. -/
def ItemNetConstructor.from_dataset (n_items : ℕ)
    (builtBlocks : List (Option (List ℕ → Mat))) : Except String ItemNetConstructor :=
  ItemNetConstructor.make n_items (builtBlocks.filterMap id)

/-- Spec-side formulation for C1: the elementwise (per `[i][j]`) sum over the
stacked block outputs, written directly as a `[b, f]` tensor of entry sums. -/
def blockwiseEntrySum (ms : List Mat) (b f : ℕ) : Mat :=
  (List.range b).map (fun i => (List.range f).map (fun j =>
    (ms.map (fun m => entry m i j)).sum))

lemma vecAdd_getD : ∀ (u v : Vec) (j : ℕ), j < u.length → j < v.length →
    (vecAdd u v).getD j 0 = u.getD j 0 + v.getD j 0 := by
  intro u
  induction u with
  | nil => intro v j hj; exact absurd hj (Nat.not_lt_zero j)
  | cons x xs ih =>
    intro v j hju hjv
    cases v with
    | nil => exact absurd hjv (Nat.not_lt_zero j)
    | cons y ys =>
      cases j with
      | zero => rfl
      | succ j =>
        simpa [vecAdd, List.getD] using
          ih ys j (Nat.lt_of_succ_lt_succ hju) (Nat.lt_of_succ_lt_succ hjv)

lemma matAdd_getD_row : ∀ (a c : Mat) (i : ℕ), i < a.length → i < c.length →
    (matAdd a c).getD i [] = vecAdd (a.getD i []) (c.getD i []) := by
  intro a
  induction a with
  | nil => intro c i hi; exact absurd hi (Nat.not_lt_zero i)
  | cons u us ih =>
    intro c i hia hic
    cases c with
    | nil => exact absurd hic (Nat.not_lt_zero i)
    | cons v vs =>
      cases i with
      | zero => rfl
      | succ i =>
        simpa [matAdd, List.getD] using
          ih vs i (Nat.lt_of_succ_lt_succ hia) (Nat.lt_of_succ_lt_succ hic)

lemma vecAdd_length (u v : Vec) : (vecAdd u v).length = min u.length v.length := by
  simp [vecAdd]

lemma matAdd_shape {f : ℕ} : ∀ {a c : Mat} {b : ℕ}, HasShape a b f → HasShape c b f →
    HasShape (matAdd a c) b f := by
  intro a
  induction a with
  | nil =>
    intro c b ha hc
    have hcnil : c = [] := List.length_eq_zero.mp (by rw [hc.1, ← ha.1]; rfl)
    subst hcnil
    exact ⟨ha.1, by simp [matAdd]⟩
  | cons u us ih =>
    intro c b ha hc
    cases c with
    | nil =>
      exfalso
      rw [← ha.1] at hc
      exact absurd hc.1 (by simp)
    | cons v vs =>
      cases b with
      | zero => exact absurd ha.1 (by simp)
      | succ b =>
        have hus : HasShape us b f :=
          ⟨Nat.succ_injective (by simpa using ha.1),
            fun r hr => ha.2 r (List.mem_cons_of_mem u hr)⟩
        have hvs : HasShape vs b f :=
          ⟨Nat.succ_injective (by simpa using hc.1),
            fun r hr => hc.2 r (List.mem_cons_of_mem v hr)⟩
        obtain ⟨hl, hrows⟩ := ih hus hvs
        refine ⟨by simpa [matAdd] using hl, ?_⟩
        intro r hr
        rcases List.mem_cons.mp hr with rfl | hr
        · rw [vecAdd_length, ha.2 u (List.mem_cons_self u us),
            hc.2 v (List.mem_cons_self v vs)]
          exact Nat.min_self f
        · exact hrows r hr

lemma getD_row_length {m : Mat} {b f i : ℕ} (hm : HasShape m b f) (hi : i < b) :
    (m.getD i []).length = f := by
  have hlen : i < m.length := by rw [hm.1]; exact hi
  rw [List.getD_eq_getElem _ _ hlen]
  exact hm.2 _ (List.getElem_mem hlen)

lemma entry_matAdd {a c : Mat} {b f i j : ℕ} (ha : HasShape a b f)
    (hc : HasShape c b f) (hi : i < b) (hj : j < f) :
    entry (matAdd a c) i j = entry a i j + entry c i j := by
  unfold entry
  rw [matAdd_getD_row a c i (by rw [ha.1]; exact hi) (by rw [hc.1]; exact hi)]
  exact vecAdd_getD _ _ j (by rw [getD_row_length ha hi]; exact hj)
    (by rw [getD_row_length hc hi]; exact hj)

lemma foldl_matAdd_spec {b f : ℕ} : ∀ (ms : List Mat) (m : Mat),
    HasShape m b f → (∀ x ∈ ms, HasShape x b f) →
    HasShape (ms.foldl matAdd m) b f ∧
    ∀ i < b, ∀ j < f,
      entry (ms.foldl matAdd m) i j = entry m i j + (ms.map (fun x => entry x i j)).sum := by
  intro ms
  induction ms with
  | nil =>
    intro m hm _
    exact ⟨hm, fun i _ j _ => by simp⟩
  | cons x xs ih =>
    intro m hm hall
    have hx : HasShape x b f := hall x (List.mem_cons_self x xs)
    have hxs : ∀ y ∈ xs, HasShape y b f := fun y hy => hall y (List.mem_cons_of_mem x hy)
    have hmx : HasShape (matAdd m x) b f := matAdd_shape hm hx
    obtain ⟨hsh, hent⟩ := ih (matAdd m x) hmx hxs
    refine ⟨hsh, fun i hi j hj => ?_⟩
    rw [List.foldl_cons] at *
    rw [hent i hi j hj, entry_matAdd hm hx hi hj]
    simp [add_assoc]

lemma sumStack_spec {b f : ℕ} {ms : List Mat} (hne : ms ≠ [])
    (hall : ∀ x ∈ ms, HasShape x b f) :
    HasShape (sumStack ms) b f ∧
    ∀ i < b, ∀ j < f, entry (sumStack ms) i j = (ms.map (fun x => entry x i j)).sum := by
  cases ms with
  | nil => exact absurd rfl hne
  | cons m rest =>
    have hm : HasShape m b f := hall m (List.mem_cons_self m rest)
    have hrest : ∀ y ∈ rest, HasShape y b f := fun y hy => hall y (List.mem_cons_of_mem m hy)
    obtain ⟨hsh, hent⟩ := foldl_matAdd_spec rest m hm hrest
    exact ⟨hsh, fun i hi j hj => by rw [sumStack, hent i hi j hj]; simp⟩

lemma vec_ext : ∀ (u v : Vec) (f : ℕ), u.length = f → v.length = f →
    (∀ j < f, u.getD j 0 = v.getD j 0) → u = v := by
  intro u
  induction u with
  | nil =>
    intro v f hu hv _
    cases v with
    | nil => rfl
    | cons y ys => subst hu; exact absurd hv.symm (by simp)
  | cons x xs ih =>
    intro v f hu hv h
    cases v with
    | nil => subst hv; exact absurd hu (by simp)
    | cons y ys =>
      cases f with
      | zero => exact absurd hu (by simp)
      | succ f =>
        have hx : x = y := h 0 (Nat.succ_pos f)
        have : xs = ys := by
          refine ih ys f (Nat.succ_injective (by simpa using hu))
            (Nat.succ_injective (by simpa using hv)) (fun j hj => ?_)
          simpa [List.getD] using h (j + 1) (Nat.succ_lt_succ hj)
        rw [hx, this]

lemma mat_ext : ∀ (a c : Mat) (b f : ℕ), HasShape a b f → HasShape c b f →
    (∀ i < b, ∀ j < f, entry a i j = entry c i j) → a = c := by
  intro a
  induction a with
  | nil =>
    intro c b f ha hc _
    have : c.length = 0 := by rw [hc.1, ← ha.1]; rfl
    exact (List.length_eq_zero.mp this).symm
  | cons u us ih =>
    intro c b f ha hc h
    cases c with
    | nil =>
      have : b = 0 := by rw [← hc.1]; rfl
      rw [this] at ha
      exact absurd ha.1 (by simp)
    | cons v vs =>
      cases b with
      | zero => exact absurd ha.1 (by simp)
      | succ b =>
        have hu : u = v := by
          refine vec_ext u v f (ha.2 u (List.mem_cons_self u us))
            (hc.2 v (List.mem_cons_self v vs)) (fun j hj => ?_)
          simpa [entry, List.getD] using h 0 (Nat.succ_pos b) j hj
        have hus : us = vs := by
          refine ih vs b f ⟨Nat.succ_injective (by simpa using ha.1),
              fun r hr => ha.2 r (List.mem_cons_of_mem u hr)⟩
            ⟨Nat.succ_injective (by simpa using hc.1),
              fun r hr => hc.2 r (List.mem_cons_of_mem v hr)⟩
            (fun i hi j hj => ?_)
          simpa [entry, List.getD] using h (i + 1) (Nat.succ_lt_succ hi) j hj
        rw [hu, hus]

lemma getD_map_range {α : Type} (g : ℕ → α) (d : α) {i b : ℕ} (hi : i < b) :
    ((List.range b).map g).getD i d = g i := by
  have hlen : i < ((List.range b).map g).length := by
    simpa [List.length_map, List.length_range] using hi
  rw [List.getD_eq_getElem _ _ hlen]
  simp

lemma blockwiseEntrySum_shape (ms : List Mat) (b f : ℕ) :
    HasShape (blockwiseEntrySum ms b f) b f := by
  constructor
  · simp [blockwiseEntrySum]
  · intro r hr
    rcases List.mem_map.mp hr with ⟨i, _, rfl⟩
    simp

lemma blockwiseEntrySum_entry (ms : List Mat) {b f i j : ℕ} (hi : i < b) (hj : j < f) :
    entry (blockwiseEntrySum ms b f) i j = (ms.map (fun m => entry m i j)).sum := by
  unfold entry blockwiseEntrySum
  rw [getD_map_range _ _ hi, getD_map_range _ _ hj]
  rfl

/-- C1: for every batch of item ids and every `ItemNetConstructor` with a
non-empty block list (whose block outputs are well-formed `[b, f]` tensors),
`forward` equals the elementwise sum over the blocks of each block's forward
output; `get_all_embeddings()` is `forward(catalog)`; and the catalog is the
ordered id range `[0, n_items)`. -/
theorem itemnet_forward_is_blockwise_sum (c : ItemNetConstructor) (items : List ℕ)
    (b f : ℕ) (hne : c.item_net_blocks ≠ [])
    (hsh : ∀ blk ∈ c.item_net_blocks, HasShape (blk items) b f) :
    c.forward items = blockwiseEntrySum (c.item_net_blocks.map (fun blk => blk items)) b f
    ∧ c.get_all_embeddings = c.forward c.catalog
    ∧ c.catalog = List.range c.n_items := by
  refine ⟨?_, rfl, rfl⟩
  have hne2 : c.item_net_blocks.map (fun blk => blk items) ≠ [] := by
    intro h
    exact hne (List.map_eq_nil_iff.mp h)
  have hall : ∀ x ∈ c.item_net_blocks.map (fun blk => blk items), HasShape x b f := by
    intro x hx
    rcases List.mem_map.mp hx with ⟨blk, hblk, rfl⟩
    exact hsh blk hblk
  obtain ⟨hsh1, hent1⟩ := sumStack_spec hne2 hall
  rw [ItemNetConstructor.forward]
  refine mat_ext _ _ b f hsh1
    (blockwiseEntrySum_shape _ b f) (fun i hi j hj => ?_)
  rw [hent1 i hi j hj, blockwiseEntrySum_entry _ hi hj]

/-- Witness for C1 at a concrete two-block composite over items `[0, 1]`. -/
theorem itemnet_forward_is_blockwise_sum_witness :
    (let c : ItemNetConstructor :=
      ⟨2, [fun its => its.map (fun i => [(i : ℤ), 1]),
           fun its => its.map (fun i => [2 * (i : ℤ), 5])]⟩
    c.forward [0, 1] =
      blockwiseEntrySum (c.item_net_blocks.map (fun blk => blk [0, 1])) 2 2
    ∧ c.get_all_embeddings = c.forward c.catalog
    ∧ c.catalog = List.range c.n_items) := by
  refine itemnet_forward_is_blockwise_sum _ [0, 1] 2 2 (by simp) ?_
  intro blk hblk
  rcases List.mem_cons.mp hblk with rfl | hblk
  · exact ⟨by decide, by decide⟩
  rcases List.mem_cons.mp hblk with rfl | hblk
  · exact ⟨by decide, by decide⟩
  · simp at hblk

/-- C10: the composite forward is invariant under permutation of the block
list (block outputs being well-formed `[b, f]` tensors). -/
theorem itemnet_forward_perm_invariant (c1 c2 : ItemNetConstructor) (items : List ℕ)
    (b f : ℕ) (hperm : c1.item_net_blocks.Perm c2.item_net_blocks)
    (hne : c1.item_net_blocks ≠ [])
    (hsh : ∀ blk ∈ c1.item_net_blocks, HasShape (blk items) b f) :
    c1.forward items = c2.forward items := by
  have hne2 : c2.item_net_blocks ≠ [] := by
    intro h
    rw [h] at hperm
    exact hne (List.Perm.eq_nil hperm)
  have hsh2 : ∀ blk ∈ c2.item_net_blocks, HasShape (blk items) b f := by
    intro blk hblk
    exact hsh blk ((hperm.mem_iff).mpr hblk)
  have hmap1 : c1.item_net_blocks.map (fun blk => blk items) ≠ [] := by
    intro h; exact hne (List.map_eq_nil_iff.mp h)
  have hmap2 : c2.item_net_blocks.map (fun blk => blk items) ≠ [] := by
    intro h; exact hne2 (List.map_eq_nil_iff.mp h)
  have hall1 : ∀ x ∈ c1.item_net_blocks.map (fun blk => blk items), HasShape x b f := by
    intro x hx
    rcases List.mem_map.mp hx with ⟨blk, hblk, rfl⟩
    exact hsh blk hblk
  have hall2 : ∀ x ∈ c2.item_net_blocks.map (fun blk => blk items), HasShape x b f := by
    intro x hx
    rcases List.mem_map.mp hx with ⟨blk, hblk, rfl⟩
    exact hsh2 blk hblk
  obtain ⟨hs1, he1⟩ := sumStack_spec hmap1 hall1
  obtain ⟨hs2, he2⟩ := sumStack_spec hmap2 hall2
  rw [ItemNetConstructor.forward, ItemNetConstructor.forward]
  refine mat_ext _ _ b f hs1 hs2 (fun i hi j hj => ?_)
  rw [he1 i hi j hj, he2 i hi j hj]
  have hp : (c1.item_net_blocks.map (fun blk => blk items)).Perm
      (c2.item_net_blocks.map (fun blk => blk items)) := hperm.map _
  exact List.Perm.sum_eq (hp.map _)

/-- Witness for C10: two composites whose block lists are swaps of each other
give the same forward output on items `[0, 1]`. -/
theorem itemnet_forward_perm_invariant_witness :
    ((⟨2, [fun its => its.map (fun i => [(i : ℤ), 1]),
           fun its => its.map (fun i => [2 * (i : ℤ), 5])]⟩ : ItemNetConstructor).forward [0, 1]
      = (⟨2, [fun its => its.map (fun i => [2 * (i : ℤ), 5]),
              fun its => its.map (fun i => [(i : ℤ), 1])]⟩ : ItemNetConstructor).forward [0, 1]) := by
  refine itemnet_forward_perm_invariant _ _ [0, 1] 2 2 ?_ (by simp) ?_
  · exact List.Perm.swap _ _ []
  · intro blk hblk
    rcases List.mem_cons.mp hblk with rfl | hblk
    · exact ⟨by decide, by decide⟩
    rcases List.mem_cons.mp hblk with rfl | hblk
    · exact ⟨by decide, by decide⟩
    · simp at hblk

/-- C2: constructing an `ItemNetConstructor` with an empty block list is a
construction error; `from_dataset` errors when every configured block type
signalled inapplicability; and a successfully constructed composite never has
zero blocks. -/
theorem itemnet_constructor_rejects_empty (n : ℕ)
    (builtBlocks : List (Option (List ℕ → Mat))) :
    ItemNetConstructor.make n [] = Except.error emptyBlocksError
    ∧ ((∀ r ∈ builtBlocks, r = none) →
        ItemNetConstructor.from_dataset n builtBlocks = Except.error emptyBlocksError)
    ∧ (∀ c : ItemNetConstructor,
        ItemNetConstructor.from_dataset n builtBlocks = Except.ok c →
        c.item_net_blocks ≠ []) := by
  refine ⟨rfl, ?_, ?_⟩
  · intro hall
    have hnil : builtBlocks.filterMap id = [] :=
      List.filterMap_eq_nil_iff.mpr hall
    rw [ItemNetConstructor.from_dataset, hnil]
    rfl
  · intro c hok
    rw [ItemNetConstructor.from_dataset, ItemNetConstructor.make] at hok
    by_cases hlen : (builtBlocks.filterMap id).length = 0
    · rw [if_pos hlen] at hok
      exact absurd hok (by simp)
    · rw [if_neg hlen] at hok
      intro hblocks
      apply hlen
      have : c.item_net_blocks = builtBlocks.filterMap id := by
        cases hok
        rfl
      rw [← this, hblocks]
      rfl

/-- Witness for C2 at the concrete all-inapplicable list `[none, none]`. -/
theorem itemnet_constructor_rejects_empty_witness :
    ItemNetConstructor.from_dataset 3 [none, none] = Except.error emptyBlocksError :=
  (itemnet_constructor_rejects_empty 3 [none, none]).2.1 (by simp)

/-- `IdEmbeddingsItemNet` (item_net.py): a plain embedding table
`nn.Embedding(num_embeddings=n_items, embedding_dim=n_factors, padding_idx=0)`
followed by dropout.  The weight table is a function from row and column index
to the entry. -/
structure IdEmbeddingsItemNet where
  n_items : ℕ
  n_factors : ℕ
  weight : ℕ → ℕ → ℤ

/-- `nn.Embedding` initialisation with `padding_idx=0`: rows are drawn from
the initialiser `w`, except the padding row, which is zeroed. -/
def IdEmbeddingsItemNet.init (n_items n_factors : ℕ) (w : ℕ → ℕ → ℤ) :
    IdEmbeddingsItemNet :=
  { n_items := n_items, n_factors := n_factors,
    weight := fun i j => if i = 0 then 0 else w i j }

/-- One optimiser step on the embedding table.  Torch semantics of
`padding_idx`: the gradient of the padding row is always zero, so the update
`g` (an arbitrary additive change per entry) is masked out at row 0 and
applied everywhere else. -/
def IdEmbeddingsItemNet.step (net : IdEmbeddingsItemNet) (g : ℕ → ℕ → ℤ) :
    IdEmbeddingsItemNet :=
  { net with weight := fun i j => if i = 0 then net.weight i j else net.weight i j + g i j }

/-- A training run: a sequence of optimiser steps. -/
def IdEmbeddingsItemNet.train (net : IdEmbeddingsItemNet) (gs : List (ℕ → ℕ → ℤ)) :
    IdEmbeddingsItemNet :=
  gs.foldl IdEmbeddingsItemNet.step net

/-- `IdEmbeddingsItemNet.forward`: direct row lookup followed by dropout.
Dropout is an elementwise scaling of the output (identity in eval mode; zero
or `1/(1-p)` per kept unit in train mode), embedded as an arbitrary
multiplicative mask `delta` over output positions. -/
def IdEmbeddingsItemNet.forward (net : IdEmbeddingsItemNet) (delta : ℕ → ℕ → ℤ)
    (items : List ℕ) : Mat :=
  items.map (fun i => (List.range net.n_factors).map (fun j => delta i j * net.weight i j))

lemma train_keeps_padding_row : ∀ (gs : List (ℕ → ℕ → ℤ)) (net : IdEmbeddingsItemNet),
    (∀ j, net.weight 0 j = 0) → ∀ j, (net.train gs).weight 0 j = 0 := by
  intro gs
  induction gs with
  | nil => intro net h j; exact h j
  | cons g gs ih =>
    intro net h j
    refine ih (net.step g) (fun j2 => ?_) j
    simp [IdEmbeddingsItemNet.step, h j2]

lemma train_factors (gs : List (ℕ → ℕ → ℤ)) (net : IdEmbeddingsItemNet) :
    (net.train gs).n_factors = net.n_factors := by
  induction gs generalizing net with
  | nil => rfl
  | cons g gs ih => exact ih (net.step g)

/-- C4: for every initialiser, every training run (sequence of gradient
updates, each masked at the padding row per `padding_idx=0`) and every dropout
mask, the trained `IdEmbeddingsItemNet` applied to item id 0 yields the
all-zero vector of width `n_factors`, and the padding row of the weight table
stays identically zero. -/
theorem id_embeddings_padding_row_zero (n_items n_factors : ℕ) (w : ℕ → ℕ → ℤ)
    (gs : List (ℕ → ℕ → ℤ)) (delta : ℕ → ℕ → ℤ) :
    ((IdEmbeddingsItemNet.init n_items n_factors w).train gs).forward delta [0]
      = [List.replicate n_factors 0]
    ∧ ∀ j, ((IdEmbeddingsItemNet.init n_items n_factors w).train gs).weight 0 j = 0 := by
  have hrow : ∀ j, ((IdEmbeddingsItemNet.init n_items n_factors w).train gs).weight 0 j = 0 :=
    train_keeps_padding_row gs _ (fun j => by simp [IdEmbeddingsItemNet.init])
  refine ⟨?_, hrow⟩
  have hvec : ∀ m : ℕ, ((List.range m).map (fun j =>
      delta 0 j * ((IdEmbeddingsItemNet.init n_items n_factors w).train gs).weight 0 j))
      = List.replicate m (0 : ℤ) := by
    intro m
    refine List.eq_replicate_iff.mpr ⟨by simp, ?_⟩
    intro x hx
    rcases List.mem_map.mp hx with ⟨j, _, rfl⟩
    rw [hrow j, mul_zero]
  show [(List.range (((IdEmbeddingsItemNet.init n_items n_factors w).train gs).n_factors)).map
      (fun j => delta 0 j * ((IdEmbeddingsItemNet.init n_items n_factors w).train gs).weight 0 j)]
      = [List.replicate n_factors 0]
  rw [train_factors, hvec ((IdEmbeddingsItemNet.init n_items n_factors w).n_factors)]
  rfl

/-- The categorical sub-matrix returned by `SparseFeatures.get_cat_features()`:
a CSR matrix over the items.  `indices` is the flattened array of categorical
feature-value ids, `indptr` the per-item offsets into `indices`, and `names`
the distinct categorical feature-value vocabulary (entries coded as naturals). -/
structure SparseCatFeatures where
  indices : List ℕ
  indptr : List ℕ
  names : List ℕ

/-- Item features of a dataset: dense (a plain matrix, no categorical
content usable by `CatFeaturesItemNet`) or sparse, embedded by the
categorical sub-matrix which is the only part `CatFeaturesItemNet` reads. -/
inductive ItemFeatures where
  | dense (values : List (List ℤ)) : ItemFeatures
  | sparse (cat : SparseCatFeatures) : ItemFeatures

/-- The fragment of a RecTools `Dataset` read by
`CatFeaturesItemNet.from_dataset`. -/
structure CatDataset where
  item_features : Option ItemFeatures

/-- `CatFeaturesItemNet` (item_net.py): the registered buffers of the block.
The embedding-bag weight table is irrelevant to the verified claims and
omitted. -/
structure CatFeaturesItemNet where
  emb_bag_inputs : List ℕ
  input_lengths : List ℕ
  offsets : List ℕ
  n_cat_feature_values : ℕ

/-- `tensor.max().item()` of a 1-D tensor, with default 0. -/
def listMax (l : List ℕ) : ℕ := l.foldr max 0

/-- The `length_range` buffer: `torch.arange(input_lengths.max().item())`. -/
def CatFeaturesItemNet.length_range (net : CatFeaturesItemNet) : List ℕ :=
  List.range (listMax net.input_lengths)

/-- `torch.diff` over a 1-D tensor of nonnegative nondecreasing entries. -/
def diffList (l : List ℕ) : List ℕ := List.zipWith (fun a b => b - a) l l.tail

/-- `torch.cumsum` (inclusive prefix sums), with an explicit accumulator. -/
def cumsumFrom (acc : ℕ) : List ℕ → List ℕ
  | [] => []
  | x :: xs => (acc + x) :: cumsumFrom (acc + x) xs

/-- `torch.cumsum(l, dim=0)`. -/
def cumsum (l : List ℕ) : List ℕ := cumsumFrom 0 l

/-- Boolean-mask indexing `idxs[mask]` of two equally shaped tensors,
flattening the `True` positions in order. -/
def maskSelect (idxs : List ℕ) (mask : List Bool) : List ℕ :=
  (idxs.zip mask).filterMap (fun p => if p.2 then some p.1 else none)

def noItemFeaturesWarning : String :=
  "Ignoring CatFeaturesItemNet block because dataset does not contain item features."

def denseFeaturesWarning : String :=
  "Ignoring CatFeaturesItemNet block because dataset item features are dense and unable to contain categorical features."

def noCatFeaturesWarning : String :=
  "Ignoring CatFeaturesItemNet block because dataset item features do not contain categorical features."

/-- `CatFeaturesItemNet.from_dataset`: returns the optional block together
with the warnings emitted.  `values.size == 0` of the scipy CSR matrix is its
number of stored values, i.e. the length of `indices`. -/
def CatFeaturesItemNet.from_dataset (d : CatDataset) :
    Option CatFeaturesItemNet × List String :=
  match d.item_features with
  | none => (none, [noItemFeaturesWarning])
  | some (ItemFeatures.dense _) => (none, [denseFeaturesWarning])
  | some (ItemFeatures.sparse cat) =>
    if cat.indices.length = 0 then (none, [noCatFeaturesWarning])
    else
      (some { emb_bag_inputs := cat.indices
              input_lengths := diffList cat.indptr
              offsets := cat.indptr.dropLast
              n_cat_feature_values := cat.names.length }, [])

/-- `CatFeaturesItemNet.get_item_inputs_offsets`: per-item gather of the
flattened feature-value slice (`offsets[items].unsqueeze(-1) + length_range`
masked by `length_range < input_lengths[items].unsqueeze(-1)`, row-major
flattening of the boolean-mask selection), and the per-batch bag offsets
`torch.cat(([0], torch.cumsum(input_lengths[items], 0)[:-1]))`. -/
def CatFeaturesItemNet.get_item_inputs_offsets (net : CatFeaturesItemNet)
    (items : List ℕ) : List ℕ × List ℕ :=
  let rows := items.map (fun it =>
    maskSelect (net.length_range.map (fun k => net.offsets.getD it 0 + k))
      (net.length_range.map (fun k => decide (k < net.input_lengths.getD it 0))))
  let item_emb_bag_inputs := (rows.flatten).map (fun idx => net.emb_bag_inputs.getD idx 0)
  let item_offsets :=
    0 :: (cumsum (items.map (fun it => net.input_lengths.getD it 0))).dropLast
  (item_emb_bag_inputs, item_offsets)

/-- Spec-side formulation for C3: the three soft-skip cases. -/
def softSkipCase (d : CatDataset) : Prop :=
  match d.item_features with
  | none => True
  | some (ItemFeatures.dense _) => True
  | some (ItemFeatures.sparse cat) => cat.indices.length = 0

/-- Spec-side formulation for C7: for each item of the batch in order, its
valid feature-value slice of `emb_bag_inputs` starting at its offset,
flattened. -/
def specGatheredInputs (net : CatFeaturesItemNet) (items : List ℕ) : List ℕ :=
  (items.map (fun it =>
    (List.range (min (net.input_lengths.getD it 0) (listMax net.input_lengths))).map
      (fun k => net.emb_bag_inputs.getD (net.offsets.getD it 0 + k) 0))).flatten

/-- Spec-side formulation for C7 and C8: exclusive cumulative sums (entry `i`
is the sum of the first `i` entries; same length as the input). -/
def exclCumsum (l : List ℕ) : List ℕ :=
  (List.range l.length).map (fun i => (l.take i).sum)

/-- Spec-side formulation for C8: successive differences of an array. -/
def successiveDiffs (l : List ℕ) : List ℕ :=
  (List.range (l.length - 1)).map (fun i => l.getD (i + 1) 0 - l.getD i 0)

lemma successiveDiffs_cons2 (x y : ℕ) (t : List ℕ) :
    successiveDiffs (x :: y :: t) = (y - x) :: successiveDiffs (y :: t) := by
  unfold successiveDiffs
  simp only [List.length_cons, Nat.succ_sub_one]
  rw [List.range_succ_eq_map]
  simp [List.map_map, Function.comp_def]

lemma diffList_eq_successiveDiffs : ∀ l : List ℕ, diffList l = successiveDiffs l := by
  intro l
  induction l with
  | nil => rfl
  | cons x t ih =>
    cases t with
    | nil => rfl
    | cons y t2 =>
      have hstep : diffList (x :: y :: t2) = (y - x) :: diffList (y :: t2) := rfl
      rw [hstep, ih, successiveDiffs_cons2]

/-- C3: `CatFeaturesItemNet.from_dataset` returns `none` (with a warning and
without raising) exactly in the three soft-skip cases — no item features,
dense item features, zero stored categorical feature values — and in every
other case returns a constructed block with no warning. -/
theorem cat_features_from_dataset_soft_skip (d : CatDataset) :
    ((CatFeaturesItemNet.from_dataset d).1 = none ↔ softSkipCase d)
    ∧ ((CatFeaturesItemNet.from_dataset d).1 = none →
        (CatFeaturesItemNet.from_dataset d).2 ≠ [])
    ∧ (¬ softSkipCase d → ∃ net, (CatFeaturesItemNet.from_dataset d).1 = some net
        ∧ (CatFeaturesItemNet.from_dataset d).2 = []) := by
  obtain ⟨fo⟩ := d
  cases fo with
  | none =>
    exact ⟨by simp [CatFeaturesItemNet.from_dataset, softSkipCase],
      fun _ => by simp [CatFeaturesItemNet.from_dataset],
      fun h => absurd trivial h⟩
  | some f =>
    cases f with
    | dense v =>
      exact ⟨by simp [CatFeaturesItemNet.from_dataset, softSkipCase],
        fun _ => by simp [CatFeaturesItemNet.from_dataset],
        fun h => absurd trivial h⟩
    | sparse cat =>
      by_cases h : cat.indices.length = 0
      · exact ⟨by simp [CatFeaturesItemNet.from_dataset, softSkipCase, h],
          fun _ => by simp [CatFeaturesItemNet.from_dataset, h],
          fun hn => absurd h hn⟩
      · refine ⟨by simp [CatFeaturesItemNet.from_dataset, softSkipCase, h], ?_, ?_⟩
        · intro hnone
          rw [CatFeaturesItemNet.from_dataset] at hnone
          simp [h] at hnone
        · intro _
          refine ⟨{ emb_bag_inputs := cat.indices, input_lengths := diffList cat.indptr,
                    offsets := cat.indptr.dropLast,
                    n_cat_feature_values := cat.names.length },
            ?_, ?_⟩
          · simp [CatFeaturesItemNet.from_dataset, h]
          · simp [CatFeaturesItemNet.from_dataset, h]

/-- Witness for C3 at a dataset with one stored categorical feature value:
outside the three soft-skip cases, a block is built. -/
theorem cat_features_from_dataset_soft_skip_witness :
    ¬ softSkipCase ⟨some (ItemFeatures.sparse ⟨[1], [0, 1], [7]⟩)⟩
    ∧ ∃ net, (CatFeaturesItemNet.from_dataset
        ⟨some (ItemFeatures.sparse ⟨[1], [0, 1], [7]⟩)⟩).1 = some net
      ∧ (CatFeaturesItemNet.from_dataset
        ⟨some (ItemFeatures.sparse ⟨[1], [0, 1], [7]⟩)⟩).2 = [] := by
  have hcase : ¬ softSkipCase ⟨some (ItemFeatures.sparse ⟨[1], [0, 1], [7]⟩)⟩ := by
    simp [softSkipCase]
  exact ⟨hcase,
    (cat_features_from_dataset_soft_skip ⟨some (ItemFeatures.sparse ⟨[1], [0, 1], [7]⟩)⟩).2.2 hcase⟩

/-- C8: whenever `CatFeaturesItemNet.from_dataset` builds a block from sparse
categorical item features whose CSR indptr has `n_items + 1` entries, the
stored `offsets` buffer has length `n_items` — one fewer than indptr, whose
last entry is dropped — and `input_lengths` is the successive differences of
indptr. -/
theorem cat_features_offsets_length (d : CatDataset) (cat : SparseCatFeatures)
    (n_items : ℕ) (net : CatFeaturesItemNet)
    (hfe : d.item_features = some (ItemFeatures.sparse cat))
    (hwf : cat.indptr.length = n_items + 1)
    (hok : (CatFeaturesItemNet.from_dataset d).1 = some net) :
    net.offsets.length = n_items
    ∧ net.offsets.length + 1 = cat.indptr.length
    ∧ net.input_lengths = successiveDiffs cat.indptr := by
  obtain ⟨fo⟩ := d
  simp only at hfe
  subst hfe
  rw [CatFeaturesItemNet.from_dataset] at hok
  by_cases h : cat.indices.length = 0
  · simp [h] at hok
  · simp only [h, if_neg, if_false] at hok
    have hnet : net = { emb_bag_inputs := cat.indices
                        input_lengths := diffList cat.indptr
                        offsets := cat.indptr.dropLast
                        n_cat_feature_values := cat.names.length } := by
      cases hok
      rfl
    subst hnet
    refine ⟨?_, ?_, diffList_eq_successiveDiffs cat.indptr⟩
    · simp [List.length_dropLast, hwf]
    · simp [List.length_dropLast, hwf]

/-- The block built from the concrete three-item dataset used by the C8
witness. -/
def catNetW : CatFeaturesItemNet :=
  { emb_bag_inputs := [5, 6, 7], input_lengths := [1, 0, 2], offsets := [0, 1, 1],
    n_cat_feature_values := 3 }

/-- Witness for C8 at a concrete three-item dataset. -/
theorem cat_features_offsets_length_witness :
    catNetW.offsets.length = 3
    ∧ catNetW.offsets.length + 1 = ([0, 1, 1, 3] : List ℕ).length
    ∧ catNetW.input_lengths = successiveDiffs [0, 1, 1, 3] :=
  cat_features_offsets_length
    ⟨some (ItemFeatures.sparse ⟨[5, 6, 7], [0, 1, 1, 3], [9, 9, 9]⟩)⟩
    ⟨[5, 6, 7], [0, 1, 1, 3], [9, 9, 9]⟩ 3 _ rfl rfl rfl

lemma filterMap_if {α β : Type} (p : α → Bool) (f : α → β) :
    ∀ l : List α, l.filterMap (fun a => if p a then some (f a) else none)
      = (l.filter p).map f := by
  intro l
  induction l with
  | nil => rfl
  | cons a t ih =>
    by_cases h : p a
    · simp [List.filterMap_cons, List.filter_cons, h, ih]
    · simp [List.filterMap_cons, List.filter_cons, h, ih]

lemma filter_range_lt (L : ℕ) : ∀ M : ℕ,
    (List.range M).filter (fun k => decide (k < L)) = List.range (min L M) := by
  intro M
  induction M with
  | zero => simp
  | succ M ih =>
    rw [List.range_succ, List.filter_append, ih]
    by_cases h : M < L
    · have hminM : min L M = M := by omega
      have hminM1 : min L (M + 1) = M + 1 := by omega
      simp [h, hminM, hminM1, List.range_succ]
    · have h1 : min L M = L := by omega
      have h2 : min L (M + 1) = L := by omega
      simp [h, h1, h2]

lemma maskSelect_map_range (M : ℕ) (f : ℕ → ℕ) (L : ℕ) :
    maskSelect ((List.range M).map f) ((List.range M).map (fun k => decide (k < L)))
      = (List.range (min L M)).map f := by
  unfold maskSelect
  rw [List.zip_map', List.filterMap_map]
  have h1 : ((fun p : ℕ × Bool => if p.2 then some p.1 else none) ∘
      (fun a => (f a, decide (a < L))))
      = fun a => if (decide (a < L) : Bool) then some (f a) else none := rfl
  rw [h1, filterMap_if (fun k => decide (k < L)) f, filter_range_lt]

lemma cumsum_offsets : ∀ (l : List ℕ), ∀ acc : ℕ, l ≠ [] →
    acc :: (cumsumFrom acc l).dropLast
      = (List.range l.length).map (fun i => acc + (l.take i).sum) := by
  intro l
  induction l with
  | nil => intro acc h; exact absurd rfl h
  | cons x xs ih =>
    intro acc _
    cases xs with
    | nil => simp [cumsumFrom, List.range_succ]
    | cons y t =>
      have hne2 : cumsumFrom (acc + x) (y :: t) ≠ [] := by simp [cumsumFrom]
      rw [cumsumFrom, List.dropLast_cons_of_ne_nil hne2]
      have hih := ih (acc + x) (by simp)
      rw [show (acc :: (acc + x) :: (cumsumFrom (acc + x) (y :: t)).dropLast)
            = acc :: ((acc + x) :: (cumsumFrom (acc + x) (y :: t)).dropLast) from rfl,
        hih]
      rw [show ((x :: y :: t).length) = (y :: t).length + 1 from rfl,
        List.range_succ_eq_map]
      simp [List.map_map, Function.comp_def, List.take_succ_cons, Nat.add_assoc]

lemma offsets_eq_exclCumsum (l : List ℕ) (h : l ≠ []) :
    0 :: (cumsum l).dropLast = exclCumsum l := by
  rw [cumsum, cumsum_offsets l 0 h]
  unfold exclCumsum
  simp

lemma gather_eq (net : CatFeaturesItemNet) (items : List ℕ) :
    (net.get_item_inputs_offsets items).1 = specGatheredInputs net items := by
  show ((items.map (fun it =>
      maskSelect (net.length_range.map (fun k => net.offsets.getD it 0 + k))
        (net.length_range.map (fun k => decide (k < net.input_lengths.getD it 0))))).flatten).map
      (fun idx => net.emb_bag_inputs.getD idx 0) = specGatheredInputs net items
  rw [List.map_flatten, List.map_map]
  unfold specGatheredInputs
  congr 1
  refine List.map_congr_left (fun it _ => ?_)
  show (maskSelect
      ((List.range (listMax net.input_lengths)).map (fun k => net.offsets.getD it 0 + k))
      ((List.range (listMax net.input_lengths)).map
        (fun k => decide (k < net.input_lengths.getD it 0)))).map
      (fun idx => net.emb_bag_inputs.getD idx 0) = _
  rw [maskSelect_map_range, List.map_map]
  rfl

/-- C7 (amended to non-empty batches): `get_item_inputs_offsets` returns the
flattened valid feature-value entries gathered per item under the boolean
length mask, and bag offsets equal to the exclusive cumulative sum of
`input_lengths[items]`, whose first entry is 0 and whose length is the batch
size. -/
theorem cat_features_get_item_inputs_offsets (net : CatFeaturesItemNet)
    (items : List ℕ) (hne : items ≠ []) :
    (net.get_item_inputs_offsets items).1 = specGatheredInputs net items
    ∧ (net.get_item_inputs_offsets items).2
        = exclCumsum (items.map (fun it => net.input_lengths.getD it 0))
    ∧ (net.get_item_inputs_offsets items).2.head? = some 0
    ∧ (net.get_item_inputs_offsets items).2.length = items.length := by
  have hlens : items.map (fun it => net.input_lengths.getD it 0) ≠ [] := by
    intro h
    exact hne (List.map_eq_nil_iff.mp h)
  have hoff : (net.get_item_inputs_offsets items).2
      = exclCumsum (items.map (fun it => net.input_lengths.getD it 0)) := by
    show 0 :: (cumsum (items.map (fun it => net.input_lengths.getD it 0))).dropLast = _
    exact offsets_eq_exclCumsum _ hlens
  refine ⟨gather_eq net items, hoff, rfl, ?_⟩
  rw [hoff]
  simp [exclCumsum]

/-- Counterexample for C7 as stated: on the empty batch the code produces the
bag-offset tensor `[0]` of length 1, while the exclusive cumulative sum of the
empty length list is empty and the batch size is 0. -/
theorem cat_features_get_item_inputs_offsets_counterexample :
    (catNetW.get_item_inputs_offsets []).2 = [0]
    ∧ exclCumsum (([] : List ℕ).map (fun it => catNetW.input_lengths.getD it 0)) = []
    ∧ (catNetW.get_item_inputs_offsets []).2.length ≠ ([] : List ℕ).length := by
  refine ⟨rfl, rfl, ?_⟩
  decide

/-- Witness for C7 at the concrete block `catNetW` and batch `[0, 2]`. -/
theorem cat_features_get_item_inputs_offsets_witness :
    (catNetW.get_item_inputs_offsets [0, 2]).1 = specGatheredInputs catNetW [0, 2]
    ∧ (catNetW.get_item_inputs_offsets [0, 2]).2
        = exclCumsum ([0, 2].map (fun it => catNetW.input_lengths.getD it 0))
    ∧ (catNetW.get_item_inputs_offsets [0, 2]).2.head? = some 0
    ∧ (catNetW.get_item_inputs_offsets [0, 2]).2.length = [0, 2].length :=
  cat_features_get_item_inputs_offsets catNetW [0, 2] (by simp)

/-- `PADDING_VALUE` occupies internal token id 0. -/
def PADDING_ID : ℕ := 0

/-- `MASKING_VALUE` occupies internal token id 1; real items start at 2. -/
def MASKING_ID : ℕ := 1

/-- The expected `x` tensor of the training batch pinned by
`test_get_dataloader_train`. -/
def bertTrainX : List (List ℕ) := [[6, 1, 4, 7], [0, 2, 4, 1], [0, 0, 3, 5]]

/-- The expected `y` tensor of the training batch pinned by
`test_get_dataloader_train`. -/
def bertTrainY : List (List ℕ) := [[0, 3, 0, 0], [0, 0, 0, 3], [0, 0, 0, 0]]

/-- The expected `yw` tensor of the training batch pinned by
`test_get_dataloader_train`. -/
def bertTrainYW : List (List ℤ) := [[1, 1, 1, 1], [0, 1, 2, 1], [0, 0, 1, 1]]

/-- Number of left-padding positions per row of the pinned batch: the three
fixture sessions kept for training have lengths 4, 3 and 2 under
`session_max_len = 4`. -/
def bertTrainPadLens : List ℕ := [0, 1, 2]

/-- The C5 property over a batch, parameterised by the weight `w` claimed at
left-padding positions: every position left of the session start holds the
padding id in `x`, target 0 in `y` and weight `w` in `yw`. -/
def leftPadPositionsHold (x y : List (List ℕ)) (yw : List (List ℤ))
    (padLens : List ℕ) (w : ℤ) : Bool :=
  (List.range x.length).all (fun i =>
    (List.range (padLens.getD i 0)).all (fun j =>
      decide ((x.getD i []).getD j 1 = PADDING_ID)
      && decide ((y.getD i []).getD j 1 = 0)
      && decide ((yw.getD i []).getD j 1 = w)))

/-- Each row of a batch holds a non-padding token right after its left
padding (so the recorded pad lengths are exactly the left-padding runs). -/
def leftPadBoundaryReal (x : List (List ℕ)) (padLens : List ℕ) : Bool :=
  (List.range x.length).all (fun i =>
    decide ((x.getD i []).getD (padLens.getD i 0) 1 ≠ PADDING_ID))

/-- Counterexample for C5 as stated: in the training batch pinned by
`test_get_dataloader_train`, the left-padding position of row 1 carries
weight 0, not weight 1. -/
theorem bert_train_left_padding_counterexample :
    leftPadPositionsHold bertTrainX bertTrainY bertTrainYW bertTrainPadLens 1 = false
    ∧ (bertTrainX.getD 1 []).getD 0 1 = PADDING_ID
    ∧ (bertTrainYW.getD 1 []).getD 0 1 = 0 := by
  refine ⟨?_, rfl, rfl⟩
  decide

/-- C5 (amended): in the training batch pinned by `test_get_dataloader_train`,
every left-padding position carries the padding id in `x`, target 0 in `y`
and weight 0 in `yw`. -/
theorem bert_train_left_padding_weight_zero :
    leftPadPositionsHold bertTrainX bertTrainY bertTrainYW bertTrainPadLens 0 = true
    ∧ leftPadBoundaryReal bertTrainX bertTrainPadLens = true := by
  constructor
  · decide
  · decide

/-- Modelled from the spec: the `BERT4RecDataPreparator` recommend-mode row
construction is absent from the sources (only its test is present).
Spec 4.4: the input is the most recent `session_max_len - 1` items of the
session, right-padded at the end with the mask token (the position to be
predicted), left-padded at the start with the padding token if the session is
shorter than the window. -/
def recommendRow (session : List ℕ) (session_max_len : ℕ) : List ℕ :=
  let window := session.drop (session.length - (session_max_len - 1))
  List.replicate ((session_max_len - 1) - window.length) PADDING_ID
    ++ window ++ [MASKING_ID]

/-- Modelled from the spec: a recommend-mode batch maps key `x` only — no
targets or weights are produced.  One row per user session. -/
structure RecommendBatch where
  x : List (List ℕ)

/-- Modelled from the spec: recommend-mode batch construction over the user
sessions. -/
def getDataloaderRecommend (sessions : List (List ℕ)) (session_max_len : ℕ) :
    RecommendBatch :=
  ⟨sessions.map (fun s => recommendRow s session_max_len)⟩

lemma recommendRow_window_length (s : List ℕ) (L : ℕ) :
    (s.drop (s.length - (L - 1))).length = min (L - 1) s.length := by
  rw [List.length_drop]
  omega

/-- C6: for every user session and window `session_max_len ≥ 1`, the
recommend-mode input row is the most recent `session_max_len - 1` items,
preceded by padding tokens filling the window when the session is shorter,
and followed by the mask token in last position; the batch carries rows of
`x` only. -/
theorem bert_recommend_row_structure (s : List ℕ) (L : ℕ) (hL : 1 ≤ L) :
    (recommendRow s L).length = L
    ∧ (recommendRow s L).take ((L - 1) - min (L - 1) s.length)
        = List.replicate ((L - 1) - min (L - 1) s.length) PADDING_ID
    ∧ ((recommendRow s L).drop ((L - 1) - min (L - 1) s.length)).take
          (min (L - 1) s.length)
        = s.drop (s.length - (L - 1))
    ∧ (recommendRow s L).getLast? = some MASKING_ID
    ∧ (getDataloaderRecommend [s] L).x = [recommendRow s L] := by
  have hw := recommendRow_window_length s L
  refine ⟨?_, ?_, ?_, ?_, rfl⟩
  · rw [recommendRow]
    simp only [List.length_append, List.length_replicate, List.length_cons,
      List.length_nil, hw]
    omega
  · rw [recommendRow]
    simp only [List.append_assoc]
    rw [show ((L - 1) - min (L - 1) s.length)
        = (List.replicate ((L - 1) - (s.drop (s.length - (L - 1))).length)
            PADDING_ID).length from by rw [List.length_replicate, hw]]
    rw [List.take_left]
    rw [List.length_replicate, hw]
  · rw [recommendRow]
    simp only [List.append_assoc]
    rw [show ((L - 1) - min (L - 1) s.length)
        = (List.replicate ((L - 1) - (s.drop (s.length - (L - 1))).length)
            PADDING_ID).length from by rw [List.length_replicate, hw]]
    rw [List.drop_left]
    rw [show min (L - 1) s.length = (s.drop (s.length - (L - 1))).length from hw.symm]
    rw [List.take_left]
  · rw [recommendRow]
    rw [show (List.replicate ((L - 1) - (s.drop (s.length - (L - 1))).length) PADDING_ID
        ++ s.drop (s.length - (L - 1)) ++ [MASKING_ID])
      = ((List.replicate ((L - 1) - (s.drop (s.length - (L - 1))).length) PADDING_ID
        ++ s.drop (s.length - (L - 1))) ++ [MASKING_ID]) from rfl]
    exact List.getLast?_concat _

/-- Witness for C6 at the one-real-interaction fixture row of
`test_get_dataloader_recommend`: session `[3, 5]` with `session_max_len = 4`
yields the row `[0, 3, 5, 1]`. -/
theorem bert_recommend_row_structure_witness :
    ((recommendRow [3, 5] 4).length = 4
    ∧ (recommendRow [3, 5] 4).take 1 = List.replicate 1 PADDING_ID
    ∧ ((recommendRow [3, 5] 4).drop 1).take 2 = [3, 5]
    ∧ (recommendRow [3, 5] 4).getLast? = some MASKING_ID
    ∧ (getDataloaderRecommend [[3, 5]] 4).x = [recommendRow [3, 5] 4])
    ∧ recommendRow [3, 5] 4 = [0, 3, 5, 1] :=
  ⟨bert_recommend_row_structure [3, 5] 4 (by decide), by decide⟩

end RecTools
